import Mathlib

/-!
# ig2tg: the dedup tracker, the delivery loop and the polling cycle

A shallow embedding of `main.go`.  The package-level map `knownStories`, the
Telegram side and the Instagram side are threaded explicitly: the map is a
partial function from keys to values (`none` at a key = key absent), a nil map
is `none`, and the two remote services are handles acting on an abstract world
state `W`.  Every `Send` call is recorded, in order, in `Env.calls`.
-/

namespace Ig2tg

/-! ## Data model -/

/-- The `TG` section of the configuration. -/
structure TG where
  Token : String
  ChatID : Int
deriving DecidableEq, Repr

/-- The `IG` section of the configuration. -/
structure IG where
  Username : String
  Password : String
deriving DecidableEq, Repr

/-- The configuration file (`PollingPeriod` in nanoseconds). -/
structure ConfigData where
  TG : TG
  IG : IG
  PollingPeriod : Int
  CrosspostNewOnly : Bool
deriving DecidableEq, Repr

/-- One candidate story. -/
structure Story where
  ID : String
  URL : String
  new : Bool
  video : Bool
deriving DecidableEq, Repr

/-- A Go `map[string]bool` that has been made: `none` at a key means the key is absent. -/
abbrev StoryMap := String → Option Bool

/-- The package-level variable `knownStories`; `none` is the nil map. -/
abbrev KnownStories := Option StoryMap

/-- The result of `make(map[string]bool)`. -/
def emptyMap : StoryMap := fun _ => none

/-- The map after the assignment `m[k] = v`. -/
def StoryMap.set (m : StoryMap) (k : String) (v : Bool) : StoryMap :=
  fun key => if key = k then some v else m key

/-- The two-valued read `v, ok := knownStories[k]`: `none` when `ok` is false
(reading a nil map finds no key). -/
def lookup (known : KnownStories) (k : String) : Option Bool :=
  match known with
  | none => none
  | some m => m k

/-- The one-valued read `knownStories[k]`: the stored value, and the zero value `false` when
the key is absent or the map is nil. -/
def valueAt (known : KnownStories) (k : String) : Bool :=
  match lookup known k with
  | some v => v
  | none => false

/-- A run-time panic of the Go program. -/
inductive Panic where
  | nilMapWrite
deriving DecidableEq, Repr

/-! ## Tracker -/

/-- The `for idx := range storyData` loop of `syncWithKnownSet`, on a made map. -/
def syncLoop : StoryMap → List Story → StoryMap × List Story
  | m, [] => (m, [])
  | m, s :: rest =>
    match m s.ID with
    | some _ =>
      let r := syncLoop m rest
      (r.1, s :: r.2)
    | none =>
      let r := syncLoop (m.set s.ID true) rest
      (r.1, { s with new := true } :: r.2)

/-- The function `syncWithKnownSet`: returns the new value of `knownStories` and the slice
as it stands after the in-place updates. -/
def syncWithKnownSet (known : KnownStories) (storyData : List Story) :
    KnownStories × List Story :=
  let m := match known with
    | none => emptyMap
    | some m => m
  let r := syncLoop m storyData
  (some r.1, r.2)

/-- The function `removeFromKnownSet`: `knownStories[storyID] = false`; an assignment to an
entry of a nil map panics. -/
def removeFromKnownSet (known : KnownStories) (storyID : String) : Except Panic KnownStories :=
  match known with
  | none => .error .nilMapWrite
  | some m => .ok (some (m.set storyID false))

/-! ## The Instagram side -/

/-- One video rendition of a story item (goinsta `Video`). -/
structure Video where
  URL : String
deriving DecidableEq, Repr

/-- One image rendition of a story item (goinsta `Candidate`). -/
structure Candidate where
  Width : Int
  Height : Int
  URL : String
deriving DecidableEq, Repr

/-- The image renditions of an item (goinsta `Images`). -/
structure Images where
  Versions : List Candidate
deriving DecidableEq, Repr

/-- One item of a story set (goinsta `Item`), with the fields `storyData` reads. -/
structure Item where
  ID : String
  Videos : List Video
  Images : Images
deriving DecidableEq, Repr

/-- The owner of a story set (goinsta `User`). -/
structure User where
  ID : Int
deriving DecidableEq, Repr

/-- One story set of the tray (goinsta `StoryMedia`). -/
structure StoryMedia where
  User : User
  Items : List Item
deriving DecidableEq, Repr

/-- The story tray (goinsta `Tray`). -/
structure Tray where
  Stories : List StoryMedia
deriving DecidableEq, Repr

/-- The handle `*goinsta.Instagram` of a logged-in account (`gram.Account` is set):
`AccountID` is `gram.Account.ID`, `Stories` is the call `gram.Timeline.Stories()` (it may
change the world and may fail), and `GetBest` is the library method `Images.GetBest`, which is
not part of this repository and is left abstract. -/
structure Instagram (W : Type) where
  AccountID : Int
  Stories : W → W × Except String Tray
  GetBest : Images → String

/-- The body of `for _, story := range storySet.Items`; `stories` is the slice built so far. -/
def storyDataItems (GetBest : Images → String) : List Item → List Story → List Story
  | [], stories => stories
  | story :: rest, stories =>
    let choice : String × Bool :=
      match story.Videos with
      | v :: _ => (v.URL, true)
      | [] =>
        match story.Images.Versions with
        | _ :: _ => (GetBest story.Images, false)
        | [] => ("", false)
    if choice.1 ≠ "" then
      storyDataItems GetBest rest
        (stories ++ [{ ID := story.ID, URL := choice.1, new := false, video := choice.2 }])
    else
      storyDataItems GetBest rest stories

/-- The loop `for _, storySet := range tray.Stories`, which stops at the first set of the
logged-in user. -/
def storyDataSets (GetBest : Images → String) (myID : Int) : List StoryMedia → List Story
  | [] => []
  | storySet :: rest =>
    if storySet.User.ID = myID then storyDataItems GetBest storySet.Items []
    else storyDataSets GetBest myID rest

/-- The function `storyData`: the new world and the two results `(stories, err)`. -/
def storyData {W : Type} (gram : Instagram W) (w : W) : W × (List Story × Option String) :=
  let myID := gram.AccountID
  match gram.Stories w with
  | (w1, .error err) => (w1, ([], some ("failed to load story data: " ++ err)))
  | (w1, .ok tray) => (w1, (storyDataSets gram.GetBest myID tray.Stories, none))

/-! ## The Telegram side -/

/-- The two kinds of message `shareToTG` builds. -/
inductive Chattable where
  | videoShare (chatID : Int) (url : String)
  | photoShare (chatID : Int) (url : String)
deriving DecidableEq, Repr

/-- The handle `*tgbotapi.BotAPI`: `Send` may change the world; its second result is the error
(`none` for a nil error). -/
structure BotAPI (W : Type) where
  Send : W → Chattable → W × Option String

/-- The record of one `handle.Send` call: the story it was made for, the message, the error. -/
structure SendCall where
  ID : String
  content : Chattable
  err : Option String
deriving DecidableEq, Repr

/-- The state a cycle runs in: `knownStories`, the outside world, and all `Send` calls made so
far, oldest first. -/
structure Env (W : Type) where
  known : KnownStories
  world : W
  calls : List SendCall

/-- The message built for one story. -/
def contentOf (chatID : Int) (s : Story) : Chattable :=
  if s.video then .videoShare chatID s.URL else .photoShare chatID s.URL

/-- The function `shareToTG`. -/
def shareToTG {W : Type} (handle : BotAPI W) (chatID : Int) :
    List Story → Env W → Except Panic (Env W)
  | [], e => .ok e
  | s :: rest, e =>
    if !s.new then shareToTG handle chatID rest e
    else
      let content := contentOf chatID s
      let r := handle.Send e.world content
      let e1 : Env W :=
        { known := e.known, world := r.1, calls := e.calls ++ [⟨s.ID, content, r.2⟩] }
      match r.2 with
      | some _ =>
        match removeFromKnownSet e1.known s.ID with
        | .error p => .error p
        | .ok k => shareToTG handle chatID rest { e1 with known := k }
      | none => shareToTG handle chatID rest e1

/-! ## One cycle and the scheduler -/

/-- The function `doCrosspost`. -/
def doCrosspost {W : Type} (igHandle : Instagram W) (tgHandle : BotAPI W) (tgChatID : Int)
    (firstIteration : Bool) (e : Env W) : Except Panic (Env W) :=
  let fetched := storyData igHandle e.world
  let synced := syncWithKnownSet e.known fetched.2.1
  let e1 : Env W := { known := synced.1, world := fetched.1, calls := e.calls }
  if firstIteration then .ok e1
  else shareToTG tgHandle tgChatID synced.2 e1

/-- The ticker loop of `main`, cut after `ticks` ticks. -/
def tickerLoop {W : Type} (igHandle : Instagram W) (tgHandle : BotAPI W) (tgChatID : Int) :
    Nat → Env W → Except Panic (Env W)
  | 0, e => .ok e
  | n + 1, e =>
    match doCrosspost igHandle tgHandle tgChatID false e with
    | .error p => .error p
    | .ok e1 => tickerLoop igHandle tgHandle tgChatID n e1

/-- The function `main` after configuration and authentication: the first cycle, run right
away with `cfg.CrosspostNewOnly`, then `ticks` cycles of the ticker.  The process starts with
a nil `knownStories` and no `Send` call made. -/
def main {W : Type} (cfg : ConfigData) (igHandle : Instagram W) (tgHandle : BotAPI W)
    (w0 : W) (ticks : Nat) : Except Panic (Env W) :=
  match doCrosspost igHandle tgHandle cfg.TG.ChatID cfg.CrosspostNewOnly
      { known := none, world := w0, calls := [] } with
  | .error p => .error p
  | .ok e => tickerLoop igHandle tgHandle cfg.TG.ChatID ticks e

/-- Whether some recorded call for story `k` returned an error. -/
def failedFor (cs : List SendCall) (k : String) : Bool :=
  cs.any (fun c => decide (c.ID = k) && c.err.isSome)

/-- Whether a batch, as `syncWithKnownSet` leaves it, has a story with ID `k` whose flag is
set. -/
def marksNew (batch : List Story) (k : String) : Bool :=
  batch.any (fun s => decide (s.ID = k) && s.new)

/-- One call on the tracker. -/
inductive TrackerCall where
  | sync (storyData : List Story)
  | remove (storyID : String)
deriving DecidableEq, Repr

/-- A sequence of tracker calls run in order from a given `knownStories`: per call, the batch
as the call leaves it (`[]` for a `removeFromKnownSet` call). -/
def trackerRun : KnownStories → List TrackerCall → Except Panic (List (List Story))
  | _, [] => .ok []
  | K, .sync b :: rest =>
    let r := syncWithKnownSet K b
    match trackerRun r.1 rest with
    | .error p => .error p
    | .ok outs => .ok (r.2 :: outs)
  | K, .remove id :: rest =>
    match removeFromKnownSet K id with
    | .error p => .error p
    | .ok K1 =>
      match trackerRun K1 rest with
      | .error p => .error p
      | .ok outs => .ok ([] :: outs)

/-! ## A scripted world for the examples -/

/-- The world of the examples: how many fetches and how many `Send` calls were made. -/
structure Sim where
  fetches : Nat
  sends : Nat
deriving DecidableEq, Repr

/-- An Instagram handle of account 1 whose `n`-th fetch answers `script n`. -/
def simIG (script : Nat → Except String Tray) : Instagram Sim :=
  { AccountID := 1
    Stories := fun w => ({ w with fetches := w.fetches + 1 }, script w.fetches)
    GetBest := fun im =>
      match im.Versions with
      | c :: _ => c.URL
      | [] => "" }

/-- A Telegram handle whose `n`-th `Send` call fails when `fails n`. -/
def simTG (fails : Nat → Bool) : BotAPI Sim :=
  { Send := fun w _ =>
      ({ w with sends := w.sends + 1 }, if fails w.sends then some "send failed" else none) }

/-- A story item with one image and no video. -/
def photoItem (id : String) : Item :=
  { ID := id, Videos := [], Images := { Versions := [{ Width := 1, Height := 1, URL := "u-" ++ id }] } }

/-- A tray with a foreign story set first and then the set of account 1. -/
def trayOf (ids : List String) : Tray :=
  { Stories := [{ User := { ID := 2 }, Items := [photoItem "other"] },
                { User := { ID := 1 }, Items := ids.map photoItem }] }

/-- Candidate selection for one item as the specification words it: the first video's URL
when the item has a video, else the best image URL when it has an image version, and no
candidate when the chosen URL is empty or there is neither. -/
def candidateOf (GetBest : Images → String) (item : Item) : Option Story :=
  match item.Videos with
  | v :: _ =>
    if v.URL = "" then none
    else some { ID := item.ID, URL := v.URL, new := false, video := true }
  | [] =>
    match item.Images.Versions with
    | _ :: _ =>
      if GetBest item.Images = "" then none
      else some { ID := item.ID, URL := GetBest item.Images, new := false, video := false }
    | [] => none

/-- Delivery as the specification words it: every story of the list is sent once, in list
order, whatever the earlier sends returned; the result is the world afterwards and the record
of the calls. -/
def deliverAll {W : Type} (handle : BotAPI W) (chatID : Int) : List Story → W → W × List SendCall
  | [], w => (w, [])
  | s :: rest, w =>
    let r := handle.Send w (contentOf chatID s)
    let t := deliverAll handle chatID rest r.1
    (t.1, ⟨s.ID, contentOf chatID s, r.2⟩ :: t.2)

/-- The scripted fetches of the retry scenario: `s1`, then `s1` and `s2`, then `s2` again. -/
def retryScript : Nat → Except String Tray
  | 0 => .ok (trayOf ["s1"])
  | 1 => .ok (trayOf ["s1", "s2"])
  | _ => .ok (trayOf ["s2"])

/-- A configuration with `crosspostNewOnly` set. -/
def cfgNewOnly : ConfigData :=
  { TG := { Token := "t", ChatID := 7 }, IG := { Username := "u", Password := "p" },
    PollingPeriod := 1000000000, CrosspostNewOnly := true }

/-- A configuration with `crosspostNewOnly` not set. -/
def cfgAll : ConfigData :=
  { TG := { Token := "t", ChatID := 7 }, IG := { Username := "u", Password := "p" },
    PollingPeriod := 1000000000, CrosspostNewOnly := false }

/-- The calls made when a run ends, when it does. -/
def callsOf {W : Type} (r : Except Panic (Env W)) : Option (List SendCall) :=
  match r with
  | .ok e => some e.calls
  | .error _ => none

/-- The map when a run ends, when it does. -/
def knownOf {W : Type} (r : Except Panic (Env W)) : KnownStories :=
  match r with
  | .ok e => e.known
  | .error _ => none

/-! ## Lemmas on the tracker -/

theorem lookup_some (m : StoryMap) (k : String) : lookup (some m) k = m k := rfl

theorem lookup_none (k : String) : lookup none k = none := rfl

theorem set_same (m : StoryMap) (k : String) (v : Bool) : m.set k v k = some v := by
  simp [StoryMap.set]

theorem set_other (m : StoryMap) (k k2 : String) (v : Bool) (h : k2 ≠ k) :
    m.set k v k2 = m k2 := by
  simp [StoryMap.set, h]

theorem syncLoop_length (l : List Story) : ∀ m : StoryMap, (syncLoop m l).2.length = l.length := by
  induction l with
  | nil => intro m; rfl
  | cons s rest ih =>
    intro m
    unfold syncLoop
    cases h : m s.ID <;> simp [ih]

/-- The map after the loop: old keys keep their value, the other IDs of the batch map to
`true`, nothing else is added. -/
theorem syncLoop_map (l : List Story) : ∀ (m : StoryMap) (k : String),
    (syncLoop m l).1 k =
      match m k with
      | some b => some b
      | none => if k ∈ l.map Story.ID then some true else none := by
  induction l with
  | nil => intro m k; cases h : m k <;> simp [syncLoop, h]
  | cons s rest ih =>
    intro m k
    unfold syncLoop
    cases h : m s.ID with
    | some b =>
      simp only [ih]
      cases hk : m k with
      | some c => rfl
      | none =>
        have hne : k ≠ s.ID := by
          intro heq; rw [heq, h] at hk; cases hk
        simp [hne]
    | none =>
      simp only [ih]
      by_cases hks : k = s.ID
      · subst hks
        simp [set_same, h]
      · rw [set_other _ _ _ _ hks]
        cases hk : m k <;> simp [hks]

/-- The story at index `i` after the loop: only the flag can change, and it is raised exactly
when the key was absent before the call and no earlier story of the batch has the same ID. -/
theorem syncLoop_getElem (l : List Story) : ∀ (m : StoryMap) (i : Nat) (s : Story),
    l[i]? = some s →
    (syncLoop m l).2[i]? =
      some { s with new := s.new ||
        ((m s.ID).isNone && (l.take i).all (fun t => decide (t.ID ≠ s.ID))) } := by
  induction l with
  | nil => intro m i s h; simp at h
  | cons s0 rest ih =>
    intro m i s h
    cases i with
    | zero =>
      simp at h
      subst h
      unfold syncLoop
      cases hm : m s0.ID <;> simp
    | succ i =>
      simp at h
      unfold syncLoop
      cases hm : m s0.ID with
      | some b =>
        simp only [List.getElem?_cons_succ, ih m i s h, List.take_succ_cons, List.all_cons]
        cases hs : m s.ID with
        | some c => simp
        | none =>
          have hne : s0.ID ≠ s.ID := by
            intro heq; rw [heq, hs] at hm; cases hm
          simp [hne]
      | none =>
        simp only [List.getElem?_cons_succ, ih _ i s h, List.take_succ_cons, List.all_cons]
        by_cases hne : s.ID = s0.ID
        · simp [hne, set_same]
        · have hne2 : s0.ID ≠ s.ID := fun h => hne h.symm
          simp [set_other _ _ _ _ hne, hne2]

/-- A batch whose IDs are all keys of the map goes through the loop untouched. -/
theorem syncLoop_of_known (l : List Story) (m : StoryMap)
    (h : ∀ s ∈ l, (m s.ID).isSome = true) : syncLoop m l = (m, l) := by
  induction l with
  | nil => rfl
  | cons s rest ih =>
    unfold syncLoop
    have hs := h s (by simp)
    cases hm : m s.ID with
    | none => rw [hm] at hs; cases hs
    | some b =>
      have := ih (fun t ht => h t (by simp [ht]))
      simp [this]

/-! ## Lemmas on the delivery loop -/

theorem deliverAll_ids {W : Type} (handle : BotAPI W) (chatID : Int) (l : List Story) :
    ∀ w : W, (deliverAll handle chatID l w).2.map SendCall.ID = l.map Story.ID := by
  induction l with
  | nil => intro w; rfl
  | cons s rest ih => intro w; simp [deliverAll, ih]

theorem deliverAll_contents {W : Type} (handle : BotAPI W) (chatID : Int) (l : List Story) :
    ∀ w : W, (deliverAll handle chatID l w).2.map SendCall.content = l.map (contentOf chatID) := by
  induction l with
  | nil => intro w; rfl
  | cons s rest ih => intro w; simp [deliverAll, ih]

/-- With a made map the loop of `shareToTG` runs to its end: it makes the calls of
`deliverAll` on the stories whose flag is set, and it writes `false` at the IDs of the failed
calls and nowhere else. -/
theorem shareToTG_spec {W : Type} (handle : BotAPI W) (chatID : Int) (l : List Story) :
    ∀ (e : Env W) (m : StoryMap), e.known = some m →
    ∃ (e1 : Env W) (m1 : StoryMap),
      shareToTG handle chatID l e = .ok e1 ∧ e1.known = some m1 ∧
      e1.world = (deliverAll handle chatID (l.filter Story.new) e.world).1 ∧
      e1.calls = e.calls ++ (deliverAll handle chatID (l.filter Story.new) e.world).2 ∧
      ∀ k, m1 k =
        if failedFor (deliverAll handle chatID (l.filter Story.new) e.world).2 k then some false
        else m k := by
  induction l with
  | nil =>
    intro e m h
    exact ⟨e, m, rfl, h, rfl, by simp [deliverAll], fun k => by simp [failedFor, deliverAll]⟩
  | cons s rest ih =>
    intro e m h
    unfold shareToTG
    by_cases hn : s.new = true
    · simp only [hn, Bool.not_true, Bool.false_eq_true, if_false]
      cases hr : (handle.Send e.world (contentOf chatID s)).2 with
      | none =>
        obtain ⟨e1, m1, h1, h2, h3, h4, h6⟩ :=
          ih { known := e.known, world := (handle.Send e.world (contentOf chatID s)).1,
               calls := e.calls ++ [⟨s.ID, contentOf chatID s, none⟩] } m h
        refine ⟨e1, m1, h1, h2, ?_, ?_, ?_⟩
        · simp [List.filter_cons, hn, deliverAll, h3]
        · simp [List.filter_cons, hn, deliverAll, h4, hr]
        · intro k
          rw [h6 k]
          simp [List.filter_cons, hn, deliverAll, failedFor, hr]
      | some err =>
        simp only [h, removeFromKnownSet]
        obtain ⟨e1, m1, h1, h2, h3, h4, h6⟩ :=
          ih { known := some (m.set s.ID false),
               world := (handle.Send e.world (contentOf chatID s)).1,
               calls := e.calls ++ [⟨s.ID, contentOf chatID s, some err⟩] }
            (m.set s.ID false) rfl
        refine ⟨e1, m1, h1, h2, ?_, ?_, ?_⟩
        · simp [List.filter_cons, hn, deliverAll, h3]
        · simp [List.filter_cons, hn, deliverAll, h4, hr]
        · intro k
          rw [h6 k]
          by_cases hk : k = s.ID
          · subst hk
            simp [List.filter_cons, hn, deliverAll, failedFor, hr, set_same]
          · have hk2 : ¬ s.ID = k := fun h => hk h.symm
            simp [List.filter_cons, hn, deliverAll, failedFor, hr, set_other _ _ _ _ hk, hk2]
    · have hn2 : s.new = false := by simpa using hn
      simp only [hn2, Bool.not_false, if_true]
      obtain ⟨e1, m1, h1, h2, h3, h4, h6⟩ := ih e m h
      exact ⟨e1, m1, h1, h2, by simpa [List.filter_cons, hn2] using h3,
        by simpa [List.filter_cons, hn2] using h4, by simpa [List.filter_cons, hn2] using h6⟩

theorem mem_take_iff_index (l : List Story) (i : Nat) (t : Story) :
    t ∈ l.take i ↔ ∃ j, j < i ∧ l[j]? = some t := by
  rw [List.mem_iff_getElem?]
  constructor
  · rintro ⟨j, hj⟩
    rw [List.getElem?_take] at hj
    by_cases hji : j < i
    · exact ⟨j, hji, by simpa [hji] using hj⟩
    · simp [hji] at hj
  · rintro ⟨j, hji, hj⟩
    exact ⟨j, by rw [List.getElem?_take]; simpa [hji] using hj⟩

/-- The flags of a batch that enters with no flag set: all clear again after the call when
every ID is a key. -/
theorem syncWithKnownSet_of_known (K : KnownStories) (m : StoryMap) (batch : List Story)
    (hK : K = some m) (h : ∀ s ∈ batch, (m s.ID).isSome = true) :
    syncWithKnownSet K batch = (some m, batch) := by
  subst hK
  simp [syncWithKnownSet, syncLoop_of_known batch m h]

/-- A story that leaves the loop under an ID that was a key before the loop is a story of the
batch, unchanged. -/
theorem syncLoop_mem_of_key (l : List Story) : ∀ (m : StoryMap) (s1 : Story),
    s1 ∈ (syncLoop m l).2 → (m s1.ID).isSome = true → s1 ∈ l := by
  induction l with
  | nil => intro m s1 h _; simp [syncLoop] at h
  | cons s0 rest ih =>
    intro m s1 h hk
    unfold syncLoop at h
    cases hm : m s0.ID with
    | some b =>
      simp only [hm, List.mem_cons] at h
      rcases h with h | h
      · simp [h]
      · exact List.mem_cons_of_mem _ (ih m s1 h hk)
    | none =>
      simp only [hm, List.mem_cons] at h
      rcases h with h | h
      · subst h
        simp [hm] at hk
      · refine List.mem_cons_of_mem _ (ih _ s1 h ?_)
        by_cases hid : s1.ID = s0.ID
        · simp [hid, set_same]
        · rw [set_other _ _ _ _ hid]; exact hk

/-- The loop changes no ID. -/
theorem syncLoop_ids (l : List Story) : ∀ m : StoryMap,
    (syncLoop m l).2.map Story.ID = l.map Story.ID := by
  induction l with
  | nil => intro m; rfl
  | cons s rest ih =>
    intro m
    unfold syncLoop
    cases h : m s.ID <;> simp [ih]

/-- An ID that is a key is not marked by `syncWithKnownSet` on a batch entering with every
flag clear. -/
theorem syncWithKnownSet_not_marked (K : KnownStories) (batch : List Story) (k : String)
    (hk : lookup K k ≠ none) (hfresh : ∀ s ∈ batch, s.new = false) :
    marksNew (syncWithKnownSet K batch).2 k = false := by
  cases K with
  | none => exact absurd rfl hk
  | some m =>
    rw [marksNew, List.any_eq_false]
    intro s1 hs1
    simp only [syncWithKnownSet] at hs1
    by_cases hid : s1.ID = k
    · have hsome : (m s1.ID).isSome = true := by
        rw [hid]
        cases h : m k with
        | none => exact absurd h hk
        | some b => rfl
      have := hfresh s1 (syncLoop_mem_of_key batch m s1 hs1 hsome)
      simp [this]
    · simp [hid]

/-- An ID marked by `syncWithKnownSet` is a key when the call returns. -/
theorem syncWithKnownSet_marked_key (K : KnownStories) (batch : List Story) (k : String)
    (h : marksNew (syncWithKnownSet K batch).2 k = true) :
    lookup (syncWithKnownSet K batch).1 k ≠ none := by
  rw [marksNew, List.any_eq_true] at h
  obtain ⟨s1, hs1, hc⟩ := h
  simp only [Bool.and_eq_true, decide_eq_true_eq] at hc
  have hmem : k ∈ batch.map Story.ID := by
    have h1 : s1.ID ∈ (syncWithKnownSet K batch).2.map Story.ID := List.mem_map_of_mem _ hs1
    simp only [syncWithKnownSet, syncLoop_ids] at h1
    rw [← hc.1]; exact h1
  cases K with
  | none =>
    simp only [syncWithKnownSet, lookup, syncLoop_map]
    cases emptyMap k <;> simp [hmem]
  | some m =>
    simp only [syncWithKnownSet, lookup, syncLoop_map]
    cases m k <;> simp [hmem]

/-- A key stays a key through `syncWithKnownSet`. -/
theorem syncWithKnownSet_keeps_key (K : KnownStories) (batch : List Story) (k : String)
    (hk : lookup K k ≠ none) : lookup (syncWithKnownSet K batch).1 k ≠ none := by
  cases K with
  | none => exact absurd rfl hk
  | some m =>
    simp only [syncWithKnownSet, lookup, syncLoop_map]
    cases h : m k with
    | none => exact absurd h hk
    | some b => simp

/-- A key stays a key through `removeFromKnownSet`, whatever ID is removed. -/
theorem removeFromKnownSet_keeps_key (K K1 : KnownStories) (id k : String)
    (h : removeFromKnownSet K id = .ok K1) (hk : lookup K k ≠ none) : lookup K1 k ≠ none := by
  cases K with
  | none => exact absurd rfl hk
  | some m =>
    simp only [removeFromKnownSet, Except.ok.injEq] at h
    subst h
    by_cases hid : k = id
    · simp [lookup, hid, set_same]
    · simpa [lookup, set_other _ _ _ _ hid] using hk

/-- Once an ID is a key, no later `syncWithKnownSet` call of the run marks it. -/
theorem trackerRun_no_mark (k : String) (calls : List TrackerCall) :
    ∀ (K : KnownStories) (outs : List (List Story)), lookup K k ≠ none →
    (∀ b, TrackerCall.sync b ∈ calls → ∀ s ∈ b, s.new = false) →
    trackerRun K calls = .ok outs → ∀ o ∈ outs, marksNew o k = false := by
  induction calls with
  | nil =>
    intro K outs _ _ hrun o ho
    simp only [trackerRun, Except.ok.injEq] at hrun
    subst hrun
    simp at ho
  | cons c rest ih =>
    intro K outs hk hfresh hrun o ho
    have hfr : ∀ b, TrackerCall.sync b ∈ rest → ∀ s ∈ b, s.new = false :=
      fun b hb => hfresh b (List.mem_cons_of_mem _ hb)
    cases c with
    | sync b =>
      simp only [trackerRun] at hrun
      cases hr : trackerRun (syncWithKnownSet K b).1 rest with
      | error p => rw [hr] at hrun; cases hrun
      | ok outs1 =>
        rw [hr] at hrun
        simp only [Except.ok.injEq] at hrun
        subst hrun
        rcases List.mem_cons.mp ho with h | h
        · subst h
          exact syncWithKnownSet_not_marked K b k hk (hfresh b (by simp))
        · exact ih _ outs1 (syncWithKnownSet_keeps_key K b k hk) hfr hr o h
    | remove id =>
      simp only [trackerRun] at hrun
      cases hrm : removeFromKnownSet K id with
      | error p => rw [hrm] at hrun; cases hrun
      | ok K1 =>
        rw [hrm] at hrun
        simp only [] at hrun
        cases hr : trackerRun K1 rest with
        | error p => rw [hr] at hrun; cases hrun
        | ok outs1 =>
          rw [hr] at hrun
          simp only [Except.ok.injEq] at hrun
          subst hrun
          rcases List.mem_cons.mp ho with h | h
          · subst h; rfl
          · exact ih K1 outs1 (removeFromKnownSet_keeps_key K K1 id k hrm hk) hfr hr o h

/-- From any `knownStories`: an ID marked by one `syncWithKnownSet` call of a run is marked by
no later one. -/
theorem trackerRun_marks_once (k : String) (calls : List TrackerCall) :
    ∀ (K : KnownStories) (outs : List (List Story)) (i j : Nat) (oi oj : List Story),
    (∀ b, TrackerCall.sync b ∈ calls → ∀ s ∈ b, s.new = false) →
    trackerRun K calls = .ok outs → i < j →
    outs[i]? = some oi → outs[j]? = some oj → marksNew oi k = true → marksNew oj k = false := by
  induction calls with
  | nil =>
    intro K outs i j oi oj _ hrun _ hi _ _
    simp only [trackerRun, Except.ok.injEq] at hrun
    subst hrun
    simp at hi
  | cons c rest ih =>
    intro K outs i j oi oj hfresh hrun hij hi hj hm
    have hfr : ∀ b, TrackerCall.sync b ∈ rest → ∀ s ∈ b, s.new = false :=
      fun b hb => hfresh b (List.mem_cons_of_mem _ hb)
    obtain ⟨j1, rfl⟩ : ∃ j1, j = j1 + 1 := ⟨j - 1, by omega⟩
    cases c with
    | sync b =>
      simp only [trackerRun] at hrun
      cases hr : trackerRun (syncWithKnownSet K b).1 rest with
      | error p => rw [hr] at hrun; cases hrun
      | ok outs1 =>
        rw [hr] at hrun
        simp only [Except.ok.injEq] at hrun
        subst hrun
        simp only [List.getElem?_cons_succ] at hj
        cases i with
        | zero =>
          simp only [List.getElem?_cons_zero, Option.some.injEq] at hi
          subst hi
          exact trackerRun_no_mark k rest _ outs1 (syncWithKnownSet_marked_key K b k hm) hfr hr
            oj (List.mem_iff_getElem?.mpr ⟨j1, hj⟩)
        | succ i1 =>
          simp only [List.getElem?_cons_succ] at hi
          exact ih _ outs1 i1 j1 oi oj hfr hr (by omega) hi hj hm
    | remove id =>
      simp only [trackerRun] at hrun
      cases hrm : removeFromKnownSet K id with
      | error p => rw [hrm] at hrun; cases hrun
      | ok K1 =>
        rw [hrm] at hrun
        simp only [] at hrun
        cases hr : trackerRun K1 rest with
        | error p => rw [hr] at hrun; cases hrun
        | ok outs1 =>
          rw [hr] at hrun
          simp only [Except.ok.injEq] at hrun
          subst hrun
          simp only [List.getElem?_cons_succ] at hj
          cases i with
          | zero =>
            simp only [List.getElem?_cons_zero, Option.some.injEq] at hi
            subst hi
            simp [marksNew] at hm
          | succ i1 =>
            simp only [List.getElem?_cons_succ] at hi
            exact ih K1 outs1 i1 j1 oi oj hfr hr (by omega) hi hj hm

/-! ## Lemmas on the fetch and on one cycle -/

/-- The map `syncWithKnownSet` leaves: old keys keep their value, the other IDs of the batch
map to `true`. -/
theorem syncWithKnownSet_lookup (K : KnownStories) (batch : List Story) (k : String) :
    lookup (syncWithKnownSet K batch).1 k =
      match lookup K k with
      | some b => some b
      | none => if k ∈ batch.map Story.ID then some true else none := by
  cases K with
  | none => simp [syncWithKnownSet, lookup, syncLoop_map, emptyMap]
  | some m => simp [syncWithKnownSet, lookup, syncLoop_map]

theorem marksNew_iff (l : List Story) (k : String) :
    marksNew l k = true ↔ k ∈ (l.filter Story.new).map Story.ID := by
  simp only [marksNew, List.any_eq_true, Bool.and_eq_true, decide_eq_true_eq, List.mem_map,
    List.mem_filter]
  constructor
  · rintro ⟨s, hs, hid, hn⟩
    exact ⟨s, ⟨hs, hn⟩, hid⟩
  · rintro ⟨s, ⟨hs, hn⟩, hid⟩
    exact ⟨s, hs, hid, hn⟩

/-- The inner loop of `storyData` appends the candidates of the items, in item order. -/
theorem storyDataItems_eq (GetBest : Images → String) (items : List Item) :
    ∀ stories : List Story,
    storyDataItems GetBest items stories = stories ++ items.filterMap (candidateOf GetBest) := by
  induction items with
  | nil => intro stories; simp [storyDataItems]
  | cons item rest ih =>
    intro stories
    unfold storyDataItems
    cases hv : item.Videos with
    | cons v vs =>
      by_cases hu : v.URL = ""
      · simp [hu, ih, candidateOf, hv]
      · simp [hu, ih, candidateOf, hv]
    | nil =>
      cases hi : item.Images.Versions with
      | cons c cs =>
        by_cases hu : GetBest item.Images = ""
        · simp [hu, ih, candidateOf, hv, hi]
        · simp [hu, ih, candidateOf, hv, hi]
      | nil => simp [ih, candidateOf, hv, hi]

/-- The outer loop of `storyData` reads the first story set of the account and no other. -/
theorem storyDataSets_eq (GetBest : Images → String) (myID : Int) (sets : List StoryMedia) :
    storyDataSets GetBest myID sets =
      match sets.find? (fun storySet => decide (storySet.User.ID = myID)) with
      | some storySet => storySet.Items.filterMap (candidateOf GetBest)
      | none => [] := by
  induction sets with
  | nil => rfl
  | cons storySet rest ih =>
    unfold storyDataSets
    by_cases h : storySet.User.ID = myID
    · simp [h, storyDataItems_eq]
    · simp [h, ih]

theorem candidateOf_fresh (GetBest : Images → String) (item : Item) (s : Story)
    (h : candidateOf GetBest item = some s) : s.URL ≠ "" ∧ s.new = false := by
  unfold candidateOf at h
  cases hv : item.Videos with
  | cons v vs =>
    rw [hv] at h
    by_cases hu : v.URL = ""
    · simp [hu] at h
    · simp only [hu, if_false, Option.some.injEq] at h
      subst h
      exact ⟨hu, rfl⟩
  | nil =>
    rw [hv] at h
    cases hi : item.Images.Versions with
    | cons c cs =>
      rw [hi] at h
      by_cases hu : GetBest item.Images = ""
      · simp [hu] at h
      · simp only [hu, if_false, Option.some.injEq] at h
        subst h
        exact ⟨hu, rfl⟩
    | nil => rw [hi] at h; simp at h

/-- Every story `storyData` returns has a non-empty URL and a clear flag. -/
theorem storyData_fresh {W : Type} (gram : Instagram W) (w : W) :
    ∀ s ∈ (storyData gram w).2.1, s.URL ≠ "" ∧ s.new = false := by
  intro s hs
  unfold storyData at hs
  rcases hq : gram.Stories w with ⟨w1, r⟩
  rw [hq] at hs
  cases r with
  | error err => simp at hs
  | ok tray =>
    simp only [storyDataSets_eq] at hs
    cases hf : tray.Stories.find? (fun storySet => decide (storySet.User.ID = gram.AccountID)) with
    | none => rw [hf] at hs; simp at hs
    | some storySet =>
      rw [hf] at hs
      simp only [List.mem_filterMap] at hs
      obtain ⟨item, _, hc⟩ := hs
      exact candidateOf_fresh gram.GetBest item s hc

/-- When `storyData` returns an error it returns no story. -/
theorem storyData_err {W : Type} (gram : Instagram W) (w : W) (err : String)
    (h : (storyData gram w).2.2 = some err) : (storyData gram w).2.1 = [] := by
  unfold storyData at h ⊢
  rcases hq : gram.Stories w with ⟨w1, r⟩
  rw [hq] at h
  cases r with
  | error e => rfl
  | ok tray => simp at h

/-- One cycle always returns: it leaves a made map, adds the calls of `deliverAll` on the
stories that `syncWithKnownSet` marked (none on a first iteration), and writes `false` at the
IDs of the failed calls and nowhere else. -/
theorem doCrosspost_spec {W : Type} (igHandle : Instagram W) (tgHandle : BotAPI W)
    (tgChatID : Int) (firstIteration : Bool) (e : Env W) :
    ∃ (e1 : Env W) (m1 : StoryMap) (cs : List SendCall),
      doCrosspost igHandle tgHandle tgChatID firstIteration e = .ok e1 ∧
      e1.known = some m1 ∧ e1.calls = e.calls ++ cs ∧
      cs = (if firstIteration then []
        else (deliverAll tgHandle tgChatID
          ((syncWithKnownSet e.known (storyData igHandle e.world).2.1).2.filter Story.new)
          (storyData igHandle e.world).1).2) ∧
      ∀ k, m1 k =
        if failedFor cs k then some false
        else lookup (syncWithKnownSet e.known (storyData igHandle e.world).2.1).1 k := by
  unfold doCrosspost
  cases firstIteration with
  | true =>
    refine ⟨_, (syncLoop (match e.known with | none => emptyMap | some m => m)
      (storyData igHandle e.world).2.1).1, [], rfl, rfl, by simp, rfl, ?_⟩
    intro k
    simp [failedFor, syncWithKnownSet, lookup]
  | false =>
    obtain ⟨e1, m1, h1, h2, _, h4, h5⟩ := shareToTG_spec tgHandle tgChatID
      (syncWithKnownSet e.known (storyData igHandle e.world).2.1).2
      { known := (syncWithKnownSet e.known (storyData igHandle e.world).2.1).1,
        world := (storyData igHandle e.world).1, calls := e.calls }
      (syncLoop (match e.known with | none => emptyMap | some m => m)
        (storyData igHandle e.world).2.1).1 rfl
    refine ⟨e1, m1, _, ?_, h2, h4, rfl, ?_⟩
    · simpa using h1
    · intro k
      simpa [syncWithKnownSet, lookup] using h5 k

/-- On a batch entering with every flag clear, the IDs the loop marks are pairwise distinct and
none of them was a key before. -/
theorem syncLoop_marked_nodup (l : List Story) : ∀ m : StoryMap,
    (∀ s ∈ l, s.new = false) →
    (((syncLoop m l).2.filter Story.new).map Story.ID).Nodup ∧
    ∀ k ∈ ((syncLoop m l).2.filter Story.new).map Story.ID, m k = none := by
  induction l with
  | nil => intro m _; simp [syncLoop]
  | cons s0 rest ih =>
    intro m hfresh
    have hr : ∀ s ∈ rest, s.new = false := fun s hs => hfresh s (List.mem_cons_of_mem _ hs)
    have h0 : s0.new = false := hfresh s0 (by simp)
    unfold syncLoop
    cases hm : m s0.ID with
    | some b =>
      obtain ⟨ih1, ih2⟩ := ih m hr
      simpa [List.filter_cons, h0] using And.intro ih1 ih2
    | none =>
      obtain ⟨ih1, ih2⟩ := ih (m.set s0.ID true) hr
      have hnot : s0.ID ∉ ((syncLoop (m.set s0.ID true) rest).2.filter Story.new).map Story.ID := by
        intro hin
        have := ih2 _ hin
        simp [set_same] at this
      refine ⟨?_, ?_⟩
      · simp only [List.filter_cons, if_true, List.map_cons, List.nodup_cons]
        exact ⟨hnot, ih1⟩
      · intro k hk
        simp only [List.filter_cons, if_true, List.map_cons, List.mem_cons] at hk
        rcases hk with hk | hk
        · rw [hk]; exact hm
        · have h1 := ih2 k hk
          have hne : k ≠ s0.ID := fun heq => hnot (heq ▸ hk)
          rwa [set_other _ _ _ _ hne] at h1

/-- The IDs one call of `syncWithKnownSet` marks on a fresh batch are pairwise distinct. -/
theorem syncWithKnownSet_marked_nodup (K : KnownStories) (batch : List Story)
    (hfresh : ∀ s ∈ batch, s.new = false) :
    (((syncWithKnownSet K batch).2.filter Story.new).map Story.ID).Nodup := by
  cases K with
  | none => exact (syncLoop_marked_nodup batch emptyMap hfresh).1
  | some m => exact (syncLoop_marked_nodup batch m hfresh).1

/-- A story whose ID is a key of the map when a cycle starts gets no `Send` call in that
cycle, and its ID is still a key when the cycle ends. -/
theorem doCrosspost_no_resend {W : Type} (igHandle : Instagram W) (tgHandle : BotAPI W)
    (tgChatID : Int) (firstIteration : Bool) (e e1 : Env W) (k : String)
    (hk : lookup e.known k ≠ none)
    (hrun : doCrosspost igHandle tgHandle tgChatID firstIteration e = .ok e1) :
    ∃ cs, e1.calls = e.calls ++ cs ∧ (∀ c ∈ cs, c.ID ≠ k) ∧ lookup e1.known k ≠ none := by
  obtain ⟨e2, m1, cs, h1, h2, h3, h4, h5⟩ :=
    doCrosspost_spec igHandle tgHandle tgChatID firstIteration e
  rw [hrun] at h1
  simp only [Except.ok.injEq] at h1
  subst h1
  have hfresh : ∀ s ∈ (storyData igHandle e.world).2.1, s.new = false :=
    fun s hs => (storyData_fresh igHandle e.world s hs).2
  refine ⟨cs, h3, ?_, ?_⟩
  · intro c hc hid
    cases firstIteration with
    | true => simp [h4] at hc
    | false =>
      have hmem : k ∈ cs.map SendCall.ID := hid ▸ List.mem_map_of_mem _ hc
      simp only [h4, Bool.false_eq_true, if_false, deliverAll_ids] at hmem
      have h6 := (marksNew_iff _ k).mpr hmem
      rw [syncWithKnownSet_not_marked e.known _ k hk hfresh] at h6
      cases h6
  · rw [h2, lookup_some, h5 k]
    by_cases hf : failedFor cs k = true
    · simp [hf]
    · simp only [hf]
      exact syncWithKnownSet_keeps_key e.known _ k hk

/-- An ID that `syncWithKnownSet` marks on a fresh batch maps to `true` when the call returns. -/
theorem syncWithKnownSet_marked_true (K : KnownStories) (batch : List Story) (k : String)
    (hfresh : ∀ s ∈ batch, s.new = false)
    (h : marksNew (syncWithKnownSet K batch).2 k = true) :
    lookup (syncWithKnownSet K batch).1 k = some true := by
  have hkey := syncWithKnownSet_marked_key K batch k h
  cases hK : lookup K k with
  | some b =>
    have := syncWithKnownSet_not_marked K batch k (by simp [hK]) hfresh
    rw [this] at h
    cases h
  | none =>
    rw [syncWithKnownSet_lookup, hK] at hkey ⊢
    by_cases hmem : k ∈ batch.map Story.ID
    · simp [hmem]
    · simp [hmem] at hkey

/-! ## The claims -/

/-- C7. Observe classification: on a batch that enters with every flag clear,
`syncWithKnownSet` keeps the length and the `ID`, `URL` and `video` of every position, raises
the flag at index `i` exactly when the ID was no key of the map before the call and occurs at
no earlier index, and leaves a made map whose keys are the old keys together with the IDs of
the batch (old keys keep their value, the added ones map to `true`). -/
theorem syncWithKnownSet_classifies (K : KnownStories) (batch : List Story)
    (hfresh : ∀ s ∈ batch, s.new = false) :
    (syncWithKnownSet K batch).2.length = batch.length ∧
    (∀ (i : Nat) (s : Story), batch[i]? = some s →
      ∃ s1, (syncWithKnownSet K batch).2[i]? = some s1 ∧
        s1.ID = s.ID ∧ s1.URL = s.URL ∧ s1.video = s.video ∧
        (s1.new = true ↔
          lookup K s.ID = none ∧ ∀ (j : Nat) (t : Story), j < i → batch[j]? = some t → t.ID ≠ s.ID)) ∧
    (∀ k, lookup (syncWithKnownSet K batch).1 k ≠ none ↔
      (lookup K k ≠ none ∨ k ∈ batch.map Story.ID)) ∧
    (∀ k, lookup (syncWithKnownSet K batch).1 k =
      match lookup K k with
      | some b => some b
      | none => if k ∈ batch.map Story.ID then some true else none) := by
  have hmap : ∀ k, lookup (syncWithKnownSet K batch).1 k =
      match lookup K k with
      | some b => some b
      | none => if k ∈ batch.map Story.ID then some true else none := by
    intro k
    cases K with
    | none => simp [syncWithKnownSet, lookup, syncLoop_map, emptyMap]
    | some m => simp [syncWithKnownSet, lookup, syncLoop_map]
  refine ⟨?_, ?_, ?_, hmap⟩
  · simp [syncWithKnownSet, syncLoop_length]
  · intro i s hs
    have hmem : s ∈ batch := List.mem_iff_getElem?.mpr ⟨i, hs⟩
    have hnew := hfresh s hmem
    have hlk : ∀ m : StoryMap, (m s.ID).isNone = true ↔ m s.ID = none := by
      intro m; cases m s.ID <;> simp
    have hall : (batch.take i).all (fun t => decide (t.ID ≠ s.ID)) = true ↔
        ∀ (j : Nat) (t : Story), j < i → batch[j]? = some t → t.ID ≠ s.ID := by
      rw [List.all_eq_true]
      constructor
      · intro h j t hj ht
        have := h t ((mem_take_iff_index batch i t).mpr ⟨j, hj, ht⟩)
        simpa using this
      · intro h t ht
        obtain ⟨j, hj, hjt⟩ := (mem_take_iff_index batch i t).mp ht
        simpa using h j t hj hjt
    cases K with
    | none =>
      refine ⟨_, syncLoop_getElem batch emptyMap i s hs, rfl, rfl, rfl, ?_⟩
      simp only [hnew, Bool.false_or, Bool.and_eq_true, hlk, hall, lookup]
      simp [emptyMap]
    | some m =>
      refine ⟨_, syncLoop_getElem batch m i s hs, rfl, rfl, rfl, ?_⟩
      simp only [hnew, Bool.false_or, Bool.and_eq_true, hlk, hall, lookup]
  · intro k
    rw [hmap k]
    cases h : lookup K k with
    | some b => simp
    | none => by_cases hk : k ∈ batch.map Story.ID <;> simp [hk]

/-- C7, at a batch with a known story, a repeated ID and a fresh one. -/
theorem syncWithKnownSet_classifies_witness :
    (∀ s ∈ [(⟨"a", "ua", false, false⟩ : Story), ⟨"b", "ub", false, true⟩,
        ⟨"b", "ub", false, true⟩], s.new = false) ∧
    (syncWithKnownSet (some (emptyMap.set "a" true))
      [⟨"a", "ua", false, false⟩, ⟨"b", "ub", false, true⟩, ⟨"b", "ub", false, true⟩]).2.length
      = 3 :=
  ⟨by decide,
   (syncWithKnownSet_classifies (some (emptyMap.set "a" true))
      [⟨"a", "ua", false, false⟩, ⟨"b", "ub", false, true⟩, ⟨"b", "ub", false, true⟩]
      (by decide)).1⟩

/-- C4. Dedup idempotence: when a batch that enters with every flag clear is passed to
`syncWithKnownSet` and then, freshly fetched, passed again with no other call in between, the
second call returns the batch as it entered, raises no flag and leaves `knownStories` as the
first call left it. -/
theorem syncWithKnownSet_twice (K : KnownStories) (batch : List Story)
    (hfresh : ∀ s ∈ batch, s.new = false) :
    (syncWithKnownSet (syncWithKnownSet K batch).1 batch).2 = batch ∧
    (syncWithKnownSet (syncWithKnownSet K batch).1 batch).2.filter Story.new = [] ∧
    (syncWithKnownSet (syncWithKnownSet K batch).1 batch).1 = (syncWithKnownSet K batch).1 := by
  have key : ∀ m : StoryMap,
      syncWithKnownSet (some (syncLoop m batch).1) batch = (some (syncLoop m batch).1, batch) := by
    intro m
    apply syncWithKnownSet_of_known _ _ _ rfl
    intro s hs
    rw [syncLoop_map]
    have hid : s.ID ∈ batch.map Story.ID := List.mem_map_of_mem _ hs
    cases m s.ID <;> simp [hid]
  have hflt : batch.filter Story.new = [] := by
    rw [List.filter_eq_nil_iff]
    intro s hs
    simp [hfresh s hs]
  cases K with
  | none =>
    have h1 : (syncWithKnownSet none batch).1 = some (syncLoop emptyMap batch).1 := rfl
    rw [h1, key emptyMap]
    exact ⟨rfl, hflt, rfl⟩
  | some m =>
    have h1 : (syncWithKnownSet (some m) batch).1 = some (syncLoop m batch).1 := rfl
    rw [h1, key m]
    exact ⟨rfl, hflt, rfl⟩

/-- C4, at a two-story batch on a nil map. -/
theorem syncWithKnownSet_twice_witness :
    (∀ s ∈ [(⟨"a", "ua", false, false⟩ : Story), ⟨"b", "ub", false, true⟩], s.new = false) ∧
    (syncWithKnownSet (syncWithKnownSet none
        [⟨"a", "ua", false, false⟩, ⟨"b", "ub", false, true⟩]).1
      [⟨"a", "ua", false, false⟩, ⟨"b", "ub", false, true⟩]).2.filter Story.new = [] :=
  ⟨by decide,
   (syncWithKnownSet_twice none [⟨"a", "ua", false, false⟩, ⟨"b", "ub", false, true⟩]
      (by decide)).2.1⟩

/-- C3, refuted as stated: on the made, empty map the ID `"x"` is no key; the call
`removeFromKnownSet "x"` returns a map in which `"x"` is a key (with value `false`), so the
state is not what it was, and the next `syncWithKnownSet` on a batch holding `"x"` leaves its
flag clear. -/
theorem removeFromKnownSet_unknown_adds_key :
    lookup (some emptyMap) "x" = none ∧
    ∃ K1, removeFromKnownSet (some emptyMap) "x" = .ok K1 ∧
      lookup K1 "x" = some false ∧
      lookup K1 "x" ≠ lookup (some emptyMap) "x" ∧
      (syncWithKnownSet K1 [⟨"x", "u", false, false⟩]).2 = [⟨"x", "u", false, false⟩] ∧
      marksNew (syncWithKnownSet K1 [⟨"x", "u", false, false⟩]).2 "x" = false :=
  ⟨rfl, _, rfl, by decide, by decide, by decide, by decide⟩

/-- C3, amended. Rollback of an ID that is no key of a made map: `removeFromKnownSet` returns
without a panic, leaves the entry of every other ID as it was, leaves the value read at the
ID `false` as it was before the call, and a second call for the same ID changes nothing
more. -/
theorem removeFromKnownSet_unknown_frame (K : KnownStories) (m : StoryMap) (id : String)
    (hK : K = some m) (hid : lookup K id = none) :
    ∃ K1, removeFromKnownSet K id = .ok K1 ∧
      (∀ k, k ≠ id → lookup K1 k = lookup K k) ∧
      valueAt K id = false ∧ valueAt K1 id = false ∧
      removeFromKnownSet K1 id = .ok K1 := by
  subst hK
  refine ⟨some (m.set id false), rfl, ?_, ?_, ?_, ?_⟩
  · intro k hk
    simp [lookup, set_other _ _ _ _ hk]
  · simp [valueAt, hid]
  · simp [valueAt, lookup, set_same]
  · simp only [removeFromKnownSet]
    congr 2
    funext k
    by_cases hk : k = id
    · simp [StoryMap.set, hk]
    · simp [StoryMap.set, hk]

/-- C3 amended, at the ID `"x"` on a made map whose only key is `"a"`. -/
theorem removeFromKnownSet_unknown_frame_witness :
    lookup (some (emptyMap.set "a" true)) "x" = none ∧
    ∃ K1, removeFromKnownSet (some (emptyMap.set "a" true)) "x" = .ok K1 ∧
      (∀ k, k ≠ "x" → lookup K1 k = lookup (some (emptyMap.set "a" true)) k) ∧
      valueAt (some (emptyMap.set "a" true)) "x" = false ∧ valueAt K1 "x" = false ∧
      removeFromKnownSet K1 "x" = .ok K1 :=
  ⟨by decide,
   removeFromKnownSet_unknown_frame (some (emptyMap.set "a" true)) (emptyMap.set "a" true) "x"
     rfl (by decide)⟩

/-- C8. No double counting, in contrapositive form: in a run of `syncWithKnownSet` and
`removeFromKnownSet` calls that starts with no known ID (batches entering with every flag
clear), when call `i` marks an ID and no `removeFromKnownSet` call for that ID lies between
call `i` and a later call `j`, call `j` does not mark that ID. -/
theorem no_double_counting (K0 : KnownStories) (calls : List TrackerCall)
    (outs : List (List Story)) (i j : Nat) (oi oj : List Story) (id : String)
    (_h0 : ∀ k, lookup K0 k = none)
    (hfresh : ∀ b, TrackerCall.sync b ∈ calls → ∀ s ∈ b, s.new = false)
    (hrun : trackerRun K0 calls = .ok outs) (hij : i < j)
    (hi : outs[i]? = some oi) (hj : outs[j]? = some oj)
    (hmark : marksNew oi id = true)
    (_hno : ∀ n, i < n → n < j → calls[n]? ≠ some (TrackerCall.remove id)) :
    marksNew oj id = false :=
  trackerRun_marks_once id calls K0 outs i j oi oj hfresh hrun hij hi hj hmark

/-- C8, at the run `sync [a]`, `remove "b"`, `sync [a]` from the nil map. -/
theorem no_double_counting_witness :
    trackerRun none [.sync [⟨"a", "u", false, false⟩], .remove "b",
        .sync [⟨"a", "u", false, false⟩]]
      = .ok [[⟨"a", "u", true, false⟩], [], [⟨"a", "u", false, false⟩]] ∧
    marksNew [⟨"a", "u", true, false⟩] "a" = true ∧
    marksNew [⟨"a", "u", false, false⟩] "a" = false :=
  ⟨rfl, by decide,
   no_double_counting none
     [.sync [⟨"a", "u", false, false⟩], .remove "b", .sync [⟨"a", "u", false, false⟩]]
     [[⟨"a", "u", true, false⟩], [], [⟨"a", "u", false, false⟩]] 0 2
     [⟨"a", "u", true, false⟩] [⟨"a", "u", false, false⟩] "a"
     (fun _ => rfl)
     (by
       intro b hb s hs
       simp only [List.mem_cons, TrackerCall.sync.injEq, List.mem_singleton, reduceCtorEq,
         false_or, or_self, List.not_mem_nil, or_false] at hb
       subst hb
       simp only [List.mem_singleton] at hs
       subst hs
       rfl)
     rfl (by decide) rfl rfl (by decide)
     (by
       intro n h1 h2
       have hn : n = 1 := by omega
       subst hn
       decide)⟩

/-- C1, evaluated on the end-to-end scenario (fetches `s1`; `s1, s2`; `s2`, first `Send`
failing, later ones succeeding): cycle 1 sends `s2` and the send fails, after which `s2` is
still a key of the map, with value `false`; cycle 2 fetches `s2` again, `syncWithKnownSet`
leaves its flag clear, and the run ends with the one failed call and no second attempt. -/
theorem rollback_retry_not_retried :
    callsOf (main cfgNewOnly (simIG retryScript) (simTG (fun n => n == 0)) ⟨0, 0⟩ 1)
      = some [⟨"s2", .photoShare 7 "u-s2", some "send failed"⟩] ∧
    lookup (knownOf (main cfgNewOnly (simIG retryScript) (simTG (fun n => n == 0)) ⟨0, 0⟩ 1))
      "s2" = some false ∧
    (storyData (simIG retryScript) ⟨2, 1⟩).2.1 = [⟨"s2", "u-s2", false, false⟩] ∧
    marksNew (syncWithKnownSet
      (knownOf (main cfgNewOnly (simIG retryScript) (simTG (fun n => n == 0)) ⟨0, 0⟩ 1))
      [⟨"s2", "u-s2", false, false⟩]).2 "s2" = false ∧
    callsOf (main cfgNewOnly (simIG retryScript) (simTG (fun n => n == 0)) ⟨0, 0⟩ 2)
      = some [⟨"s2", .photoShare 7 "u-s2", some "send failed"⟩] :=
  ⟨by decide, by decide, by decide, by decide, by decide⟩

/-- C2, refuted as stated: with `crosspostNewOnly` not set, the first cycle of `main` on a
fetch of one story makes a `Send` call. -/
theorem backlog_delivered_when_flag_off :
    callsOf (main cfgAll (simIG (fun _ => .ok (trayOf ["s1"]))) (simTG (fun _ => false))
      ⟨0, 0⟩ 0) = some [⟨"s1", .photoShare 7 "u-s1", none⟩] ∧
    callsOf (main cfgAll (simIG (fun _ => .ok (trayOf ["s1"]))) (simTG (fun _ => false))
      ⟨0, 0⟩ 0) ≠ some [] :=
  ⟨by decide, by decide⟩

/-- C2, amended. Backlog suppression: when `cfg.CrosspostNewOnly` is set, the first cycle of
`main` returns, makes no `Send` call whatever the fetch returned, and leaves every fetched
story ID known (a key of the map, with value `true`). -/
theorem backlog_suppressed_when_flag_on {W : Type} (cfg : ConfigData)
    (igHandle : Instagram W) (tgHandle : BotAPI W) (w0 : W)
    (hcfg : cfg.CrosspostNewOnly = true) :
    ∃ e : Env W, main cfg igHandle tgHandle w0 0 = .ok e ∧ e.calls = [] ∧
      ∀ s ∈ (storyData igHandle w0).2.1, lookup e.known s.ID = some true := by
  refine ⟨{ known := (syncWithKnownSet none (storyData igHandle w0).2.1).1,
            world := (storyData igHandle w0).1, calls := [] }, ?_, rfl, ?_⟩
  · simp [main, doCrosspost, hcfg, tickerLoop]
  · intro s hs
    have hid : s.ID ∈ (storyData igHandle w0).2.1.map Story.ID := List.mem_map_of_mem _ hs
    rw [syncWithKnownSet_lookup]
    simp [lookup, hid]

/-- C2 amended, at a fetch of two stories. -/
theorem backlog_suppressed_when_flag_on_witness :
    cfgNewOnly.CrosspostNewOnly = true ∧
    ∃ e : Env Sim, main cfgNewOnly (simIG (fun _ => .ok (trayOf ["s1", "s2"])))
        (simTG (fun _ => false)) ⟨0, 0⟩ 0 = .ok e ∧ e.calls = [] ∧
      ∀ s ∈ (storyData (simIG (fun _ => .ok (trayOf ["s1", "s2"]))) ⟨0, 0⟩).2.1,
        lookup e.known s.ID = some true :=
  ⟨rfl, backlog_suppressed_when_flag_on cfgNewOnly (simIG (fun _ => .ok (trayOf ["s1", "s2"])))
    (simTG (fun _ => false)) ⟨0, 0⟩ rfl⟩

/-- C6. Order preservation: on a made map `shareToTG` returns, and the `Send` calls it adds
are, whatever each send returns, one call per story of the batch whose flag is set and none
for the others, in batch order, each with the message built from its story; the same holds
for the delivery of every cycle that is not a first iteration, from any state. -/
theorem shareToTG_order {W : Type} (handle : BotAPI W) (chatID : Int) (stories : List Story)
    (e : Env W) (m : StoryMap) (igHandle : Instagram W) (e0 : Env W)
    (hk : e.known = some m) :
    (∃ (e1 : Env W) (cs : List SendCall),
      shareToTG handle chatID stories e = .ok e1 ∧ e1.calls = e.calls ++ cs ∧
      cs.length = (stories.filter Story.new).length ∧
      cs.map SendCall.ID = (stories.filter Story.new).map Story.ID ∧
      cs.map SendCall.content = (stories.filter Story.new).map (contentOf chatID) ∧
      cs = (deliverAll handle chatID (stories.filter Story.new) e.world).2) ∧
    (∃ (e1 : Env W) (cs : List SendCall),
      doCrosspost igHandle handle chatID false e0 = .ok e1 ∧ e1.calls = e0.calls ++ cs ∧
      cs.map SendCall.ID =
        ((syncWithKnownSet e0.known (storyData igHandle e0.world).2.1).2.filter
          Story.new).map Story.ID ∧
      cs.map SendCall.content =
        ((syncWithKnownSet e0.known (storyData igHandle e0.world).2.1).2.filter
          Story.new).map (contentOf chatID)) := by
  constructor
  · obtain ⟨e1, m1, h1, _, _, h4, _⟩ := shareToTG_spec handle chatID stories e m hk
    refine ⟨e1, _, h1, h4, ?_, deliverAll_ids _ _ _ _, deliverAll_contents _ _ _ _, rfl⟩
    have := congrArg List.length (deliverAll_ids handle chatID (stories.filter Story.new) e.world)
    simpa using this
  · obtain ⟨e1, m1, cs, h1, _, h3, h4, _⟩ := doCrosspost_spec igHandle handle chatID false e0
    refine ⟨e1, cs, h1, h3, ?_, ?_⟩
    · rw [h4]; simp [deliverAll_ids]
    · rw [h4]; simp [deliverAll_contents]

/-- C6, at the batch `[A, B, C]`, all flagged, with the second send failing: the calls are
for `A`, `B`, `C` in this order. -/
theorem shareToTG_order_witness :
    ∃ (e1 : Env Sim) (cs : List SendCall),
      shareToTG (simTG (fun n => n == 1)) 7
        [⟨"A", "ua", true, false⟩, ⟨"B", "ub", true, true⟩, ⟨"C", "uc", true, false⟩]
        { known := some emptyMap, world := ⟨0, 0⟩, calls := [] } = .ok e1 ∧
      e1.calls = [] ++ cs ∧ cs.map SendCall.ID = ["A", "B", "C"] := by
  obtain ⟨e1, cs, h1, h2, _, h4, _, _⟩ :=
    (shareToTG_order (simTG (fun n => n == 1)) 7
      [⟨"A", "ua", true, false⟩, ⟨"B", "ub", true, true⟩, ⟨"C", "uc", true, false⟩]
      { known := some emptyMap, world := ⟨0, 0⟩, calls := [] } emptyMap
      (simIG retryScript) { known := none, world := ⟨0, 0⟩, calls := [] } rfl).1
  exact ⟨e1, cs, h1, h2, h4⟩

/-- C9. Fetch failure: when `storyData` returns an error, the cycle, first iteration or not,
returns, makes no `Send` call, and leaves every ID as it was: a key stays a key with its value
and no key is added. -/
theorem fetch_failure_cycle {W : Type} (igHandle : Instagram W) (tgHandle : BotAPI W)
    (tgChatID : Int) (firstIteration : Bool) (e : Env W) (err : String)
    (herr : (storyData igHandle e.world).2.2 = some err) :
    ∃ e1 : Env W, doCrosspost igHandle tgHandle tgChatID firstIteration e = .ok e1 ∧
      e1.calls = e.calls ∧ (∀ k, lookup e1.known k = lookup e.known k) ∧
      e1.world = (storyData igHandle e.world).1 := by
  have hnil := storyData_err igHandle e.world err herr
  refine ⟨{ known := (syncWithKnownSet e.known []).1,
            world := (storyData igHandle e.world).1, calls := e.calls }, ?_, rfl, ?_, rfl⟩
  · simp only [doCrosspost, hnil]
    cases firstIteration <;> simp [syncWithKnownSet, syncLoop, shareToTG]
  · intro k
    rw [syncWithKnownSet_lookup]
    cases lookup e.known k <;> simp

/-- C9, at a failing fetch on a map holding one key, in a cycle that is not the first. -/
theorem fetch_failure_cycle_witness :
    (storyData (simIG (fun _ => .error "timeout")) (⟨0, 0⟩ : Sim)).2.2
      = some "failed to load story data: timeout" ∧
    ∃ e1 : Env Sim, doCrosspost (simIG (fun _ => .error "timeout")) (simTG (fun _ => false)) 7
        false { known := some (emptyMap.set "a" true), world := ⟨0, 0⟩, calls := [] } = .ok e1 ∧
      e1.calls = [] ∧
      (∀ k, lookup e1.known k = lookup (some (emptyMap.set "a" true)) k) ∧
      e1.world = (storyData (simIG (fun _ => .error "timeout")) (⟨0, 0⟩ : Sim)).1 :=
  ⟨rfl, fetch_failure_cycle (simIG (fun _ => .error "timeout")) (simTG (fun _ => false)) 7
    false { known := some (emptyMap.set "a" true), world := ⟨0, 0⟩, calls := [] }
    "failed to load story data: timeout" rfl⟩

/-- C10. Candidate selection: when the tray loads, `storyData` returns no error and the
candidates, in item order, of the first story set whose user ID is the account ID (no story
when there is no such set); an item with a video gives `video = true` and the first video's
URL, an item with no video and an image version gives `video = false` and the best image URL,
an item whose chosen URL is empty gives nothing; every returned story has a non-empty URL and
a clear flag. -/
theorem storyData_candidates {W : Type} (gram : Instagram W) (w w1 : W) (tray : Tray)
    (hload : gram.Stories w = (w1, .ok tray)) :
    storyData gram w =
      (w1, ((match tray.Stories.find? (fun storySet => decide (storySet.User.ID = gram.AccountID))
              with
             | some storySet => storySet.Items.filterMap (candidateOf gram.GetBest)
             | none => []), none)) ∧
    (∀ item v vs, item.Videos = v :: vs →
      candidateOf gram.GetBest item =
        if v.URL = "" then none else some ⟨item.ID, v.URL, false, true⟩) ∧
    (∀ item c cs, item.Videos = [] → item.Images.Versions = c :: cs →
      candidateOf gram.GetBest item =
        if gram.GetBest item.Images = "" then none
        else some ⟨item.ID, gram.GetBest item.Images, false, false⟩) ∧
    (∀ item, item.Videos = [] → item.Images.Versions = [] →
      candidateOf gram.GetBest item = none) ∧
    (∀ s ∈ (storyData gram w).2.1, s.URL ≠ "" ∧ s.new = false) := by
  refine ⟨?_, ?_, ?_, ?_, storyData_fresh gram w⟩
  · unfold storyData
    rw [hload]
    simp only [storyDataSets_eq]
  · intro item v vs hv
    simp [candidateOf, hv]
  · intro item c cs hv hi
    simp [candidateOf, hv, hi]
  · intro item hv hi
    simp [candidateOf, hv, hi]

/-- C10, at a tray with a foreign set first and then the account's set of two photo items. -/
theorem storyData_candidates_witness :
    (simIG (fun _ => .ok (trayOf ["s1", "s2"]))).Stories ⟨0, 0⟩
      = (⟨1, 0⟩, .ok (trayOf ["s1", "s2"])) ∧
    (storyData (simIG (fun _ => .ok (trayOf ["s1", "s2"]))) ⟨0, 0⟩).2.1
      = [⟨"s1", "u-s1", false, false⟩, ⟨"s2", "u-s2", false, false⟩] ∧
    ∀ s ∈ (storyData (simIG (fun _ => .ok (trayOf ["s1", "s2"]))) ⟨0, 0⟩).2.1,
      s.URL ≠ "" ∧ s.new = false :=
  ⟨rfl, by decide,
   (storyData_candidates (simIG (fun _ => .ok (trayOf ["s1", "s2"]))) ⟨0, 0⟩ ⟨1, 0⟩
      (trayOf ["s1", "s2"]) rfl).2.2.2.2⟩

/-- C5. Partial-batch resilience.  On a made map `shareToTG` returns whatever the sends
return: a failed send does not stop the loop, every story whose flag is set gets its call, in
order, and every ID for which no send failed has the map entry it had before.  And when a
cycle that is not a first iteration makes three `Send` calls of which the first and the third
succeed (whatever the second returns, a failure included), the first and the third story are
known when the cycle ends (keys with value `true`), and the next cycle returns and makes no
call for either of them, whatever it fetches. -/
theorem batch_resilience {W : Type} (handle : BotAPI W) (chatID : Int)
    (stories : List Story) (e : Env W) (m : StoryMap) (igHandle : Instagram W)
    (e0 e1 : Env W) (c1 c2 c3 : SendCall)
    (hk : e.known = some m)
    (hcycle : doCrosspost igHandle handle chatID false e0 = .ok e1)
    (hcalls : e1.calls = e0.calls ++ [c1, c2, c3])
    (h1 : c1.err = none) (h3 : c3.err = none) :
    (∃ (eF : Env W) (mF : StoryMap) (cs : List SendCall),
      shareToTG handle chatID stories e = .ok eF ∧ eF.known = some mF ∧
      eF.calls = e.calls ++ cs ∧
      cs = (deliverAll handle chatID (stories.filter Story.new) e.world).2 ∧
      cs.map SendCall.ID = (stories.filter Story.new).map Story.ID ∧
      ∀ k, failedFor cs k = false → mF k = m k) ∧
    (lookup e1.known c1.ID = some true ∧ lookup e1.known c3.ID = some true ∧
      ∃ (e2 : Env W) (cs2 : List SendCall),
        doCrosspost igHandle handle chatID false e1 = .ok e2 ∧
        e2.calls = e1.calls ++ cs2 ∧ ∀ c ∈ cs2, c.ID ≠ c1.ID ∧ c.ID ≠ c3.ID) := by
  constructor
  · obtain ⟨eF, mF, g1, g2, _, g4, g5⟩ := shareToTG_spec handle chatID stories e m hk
    refine ⟨eF, mF, _, g1, g2, g4, rfl, deliverAll_ids _ _ _ _, ?_⟩
    intro k hf
    rw [g5 k, hf]
    simp
  · obtain ⟨eA, m1, cs, g1, g2, g3, g4, g5⟩ := doCrosspost_spec igHandle handle chatID false e0
    rw [hcycle] at g1
    simp only [Except.ok.injEq] at g1
    subst g1
    have hcs : cs = [c1, c2, c3] := List.append_cancel_left (g3.symm.trans hcalls)
    have hfresh : ∀ s ∈ (storyData igHandle e0.world).2.1, s.new = false :=
      fun s hs => (storyData_fresh igHandle e0.world s hs).2
    have hids : [c1.ID, c2.ID, c3.ID] =
        ((syncWithKnownSet e0.known (storyData igHandle e0.world).2.1).2.filter
          Story.new).map Story.ID := by
      have := congrArg (List.map SendCall.ID) g4
      simpa [hcs, deliverAll_ids] using this
    have hnd : [c1.ID, c2.ID, c3.ID].Nodup := by
      rw [hids]
      exact syncWithKnownSet_marked_nodup _ _ hfresh
    simp only [List.nodup_cons, List.mem_cons, List.mem_singleton, List.not_mem_nil,
      not_or, not_false_eq_true, List.nodup_nil, and_true] at hnd
    obtain ⟨⟨h12, h13⟩, h23⟩ := hnd
    have hmark : ∀ k ∈ [c1.ID, c2.ID, c3.ID],
        lookup (syncWithKnownSet e0.known (storyData igHandle e0.world).2.1).1 k = some true := by
      intro k hk
      apply syncWithKnownSet_marked_true _ _ _ hfresh
      rw [marksNew_iff, ← hids]
      exact hk
    have hk1 : lookup e1.known c1.ID = some true := by
      rw [g2, lookup_some, g5 c1.ID, hcs]
      have h21 : ¬ c2.ID = c1.ID := fun h => h12 h.symm
      have h31 : ¬ c3.ID = c1.ID := fun h => h13 h.symm
      simp [failedFor, h1, h21, h31, hmark c1.ID (by simp)]
    have hk3 : lookup e1.known c3.ID = some true := by
      rw [g2, lookup_some, g5 c3.ID, hcs]
      simp [failedFor, h3, h13, h23, hmark c3.ID (by simp)]
    refine ⟨hk1, hk3, ?_⟩
    obtain ⟨e2, _, cs2, r1, _, r3, _, _⟩ := doCrosspost_spec igHandle handle chatID false e1
    obtain ⟨csa, ra, rb, _⟩ := doCrosspost_no_resend igHandle handle chatID false e1 e2 c1.ID
      (by simp [hk1]) r1
    obtain ⟨csb, rc, rd, _⟩ := doCrosspost_no_resend igHandle handle chatID false e1 e2 c3.ID
      (by simp [hk3]) r1
    have hab : csa = cs2 := List.append_cancel_left (ra.symm.trans r3)
    have hbb : csb = cs2 := List.append_cancel_left (rc.symm.trans r3)
    exact ⟨e2, cs2, r1, r3, fun c hc => ⟨rb c (hab ▸ hc), rd c (hbb ▸ hc)⟩⟩

/-- C5, at a cycle that fetches three unseen stories and whose second send fails, followed by a
cycle that fetches the same three stories. -/
theorem batch_resilience_witness :
    doCrosspost (simIG (fun _ => .ok (trayOf ["a", "b", "c"]))) (simTG (fun n => n == 1)) 7 false
        { known := some emptyMap, world := ⟨0, 0⟩, calls := [] }
      = .ok { known := some (((emptyMap.set "a" true).set "b" true).set "c" true |>.set "b" false),
              world := ⟨1, 3⟩,
              calls := [⟨"a", .photoShare 7 "u-a", none⟩,
                        ⟨"b", .photoShare 7 "u-b", some "send failed"⟩,
                        ⟨"c", .photoShare 7 "u-c", none⟩] } ∧
    lookup (some (((emptyMap.set "a" true).set "b" true).set "c" true |>.set "b" false)) "a"
      = some true ∧
    lookup (some (((emptyMap.set "a" true).set "b" true).set "c" true |>.set "b" false)) "c"
      = some true ∧
    ∃ (e2 : Env Sim) (cs2 : List SendCall),
      doCrosspost (simIG (fun _ => .ok (trayOf ["a", "b", "c"]))) (simTG (fun n => n == 1)) 7
        false
        { known := some (((emptyMap.set "a" true).set "b" true).set "c" true |>.set "b" false),
          world := ⟨1, 3⟩,
          calls := [⟨"a", .photoShare 7 "u-a", none⟩,
                    ⟨"b", .photoShare 7 "u-b", some "send failed"⟩,
                    ⟨"c", .photoShare 7 "u-c", none⟩] } = .ok e2 ∧
      e2.calls = [⟨"a", .photoShare 7 "u-a", none⟩,
                  ⟨"b", .photoShare 7 "u-b", some "send failed"⟩,
                  ⟨"c", .photoShare 7 "u-c", none⟩] ++ cs2 ∧
      ∀ c ∈ cs2, c.ID ≠ "a" ∧ c.ID ≠ "c" :=
  have h := batch_resilience (simTG (fun n => n == 1)) 7
    [⟨"a", "u-a", true, false⟩] { known := some emptyMap, world := ⟨0, 0⟩, calls := [] } emptyMap
    (simIG (fun _ => .ok (trayOf ["a", "b", "c"])))
    { known := some emptyMap, world := ⟨0, 0⟩, calls := [] }
    { known := some (((emptyMap.set "a" true).set "b" true).set "c" true |>.set "b" false),
      world := ⟨1, 3⟩,
      calls := [⟨"a", .photoShare 7 "u-a", none⟩,
                ⟨"b", .photoShare 7 "u-b", some "send failed"⟩,
                ⟨"c", .photoShare 7 "u-c", none⟩] }
    ⟨"a", .photoShare 7 "u-a", none⟩ ⟨"b", .photoShare 7 "u-b", some "send failed"⟩
    ⟨"c", .photoShare 7 "u-c", none⟩ rfl rfl rfl rfl rfl
  ⟨rfl, h.2.1, h.2.2.1, h.2.2.2⟩

end Ig2tg
